import Mathlib

/-!
Shallow embedding of parts of the `compare-mt` tool
(`compare_mt/scorers.py`, `compare_mt/sign_utils.py`, `compare_mt/stat_utils.py`,
`compare_mt/ngram_utils.py`, `compare_mt/bucketers.py`), with theorems that
settle specification claims about it.

Conventions used throughout:
* Python token lists are `List String`, corpora are `List (List String)`.
* Python numbers are modelled exactly: `int` counts as `ℕ`, floats whose
  arithmetic is exact (counts, penalties, ratios, divisions of integers) as
  `ℚ`; only the transcendental tail of corpus BLEU (`math.log` / `math.exp`)
  is modelled over `ℝ`.
* `int(x)` truncation for `0 ≤ x` is `Int.toNat ⌊x⌋`.
* A raised Python exception is an `Except.error` (or `none` for a spot where
  only the crash/no-crash distinction matters).
-/

namespace CompareMT

/-- `corpus_utils.lower` applied to one tokenised sentence
    (lowercases every token). -/
def lowerSent (s : List String) : List String := s.map String.toLower

/-- `corpus_utils.lower` applied to a corpus (list of tokenised sentences). -/
def lowerCorpus (c : List (List String)) : List (List String) := c.map lowerSent

/-! ### stat_utils.py -/

/-- `stat_utils.extract_salient_features`.  The two dictionaries of feature
    counts are modelled as total functions `String → ℕ` (callers pass
    defaultdict-backed aggregate counts, so missing keys read as `0`); the
    score of key `k` is `(dict1[k]+alpha) / (dict1[k]+dict2[k]+2*alpha)`. -/
def extract_salient_features (dict1 dict2 : String → ℕ) (alpha : ℚ) : String → ℚ :=
  fun k => ((dict1 k : ℚ) + alpha) / ((dict1 k : ℚ) + (dict2 k : ℚ) + 2 * alpha)

/-! ### scorers.py : RIBES rank correlation -/

/-- The double loop of `RibesScorer._kendall_tau_distance`
    (scorers.py lines 385-389): `dis` counts the pairs `i < j` with
    `alignment[j] > alignment[i]`. -/
def kendall_dis (alignment : List ℤ) : ℕ :=
  let n := alignment.length
  ((List.range n).map (fun i =>
    ((List.range n).filter (fun j => i < j)).countP
      (fun j => alignment.getD i 0 < alignment.getD j 0))).sum

/-- `RibesScorer._kendall_tau_distance` (scorers.py lines 372-390): returns
    `0` when `n <= 1` and `2*dis/(n*n-n)` otherwise. -/
def kendall_tau_distance (alignment : List ℤ) : ℚ :=
  let n := alignment.length
  if n ≤ 1 then 0
  else 2 * (kendall_dis alignment : ℚ) / ((n : ℚ) * n - n)

/-- Modelled from the spec claim (for comparison with the code): the number
    of discordant pairs, a pair `(i, j)` with `i < j` being discordant
    exactly when `alignment[j] > alignment[i]` is false. -/
def kendall_dis_claimed (alignment : List ℤ) : ℕ :=
  let n := alignment.length
  ((List.range n).map (fun i =>
    ((List.range n).filter (fun j => i < j)).countP
      (fun j => ¬ (alignment.getD i 0 < alignment.getD j 0)))).sum

/-- Modelled from the spec claim: the value `2 * (#discordant pairs) /
    (n^2 - n)` for `n ≥ 2`, `0` for `n ≤ 1`. -/
def kendall_tau_distance_claimed (alignment : List ℤ) : ℚ :=
  let n := alignment.length
  if n ≤ 1 then 0
  else 2 * (kendall_dis_claimed alignment : ℚ) / ((n : ℚ) * n - n)

/-! ### scorers.py : BLEU / SacreBLEU scorers (sentence-level refusal) -/

/-- The fields of `BleuScorer.__init__`. -/
structure BleuScorer where
  weights : List ℚ
  case_insensitive : Bool

/-- `BleuScorer.score_sentence` (scorers.py lines 133-135) unconditionally
    raises `NotImplementedError`; modelled as an `Except` value. -/
def BleuScorer.score_sentence (_W : BleuScorer) (_ref _out : List String) :
    Except String ℚ :=
  Except.error
    "Sentence-level calculation is not implemented in BleuScorer as it is usually 0.Consider using SentenceBleuScorer (string sentbleu) instead."

/-- The fields of `SacreBleuScorer.__init__`. -/
structure SacreBleuScorer where
  smooth_method : String
  smooth_value : ℚ
  use_effective_order : Bool
  case_insensitive : Bool

/-- `SacreBleuScorer.score_sentence` (scorers.py lines 432-434)
    unconditionally raises `NotImplementedError`. -/
def SacreBleuScorer.score_sentence (_W : SacreBleuScorer) (_ref _out : List String) :
    Except String ℚ :=
  Except.error
    "Sentence-level calculation is not implemented in SacreBleuScorer as it is usually 0.Consider using SentenceBleuScorer (string sentbleu) instead."

/-! ### ngram_utils.py and scorers.py : corpus BLEU -/

/-- `global_scorer_scale` (scorers.py line 18). -/
def global_scorer_scale : ℚ := 100

/-- `ngram_utils.sent_ngrams_list words n`: the n-grams of a sentence as
    contiguous sublists; python iterates `range(len(words) - n + 1)`, which
    is empty when `len(words) + 1 < n + 1`, exactly `len(words) + 1 - n`
    under truncated ℕ subtraction. -/
def sent_ngrams_list (words : List String) (n : ℕ) : List (List String) :=
  (List.range (words.length + 1 - n)).map (fun i => (words.drop i).take n)

/-- `BleuScorer._precision` (scorers.py lines 137-160): clipped n-gram
    matches and total output n-grams; the iteration over the items of
    `Counter(out_ngram)` is the iteration over `out_ngram.dedup`. -/
def bleu_precision (ref out : List String) (n : ℕ) : ℕ × ℕ :=
  let out_ngram := sent_ngrams_list out n
  let ref_ngram := sent_ngrams_list ref n
  let num := (out_ngram.dedup.map
    (fun g => min (out_ngram.count g) (ref_ngram.count g))).sum
  let denom := max 1 (out_ngram.dedup.map (fun g => out_ngram.count g)).sum
  (num, denom)

/-- One entry of the BLEU statistics cache: `(len(r), len(o), prec)`. -/
structure BleuStats where
  ref_len : ℕ
  out_len : ℕ
  prec : List (ℕ × ℕ)

instance : Inhabited BleuStats := ⟨⟨0, 0, []⟩⟩

/-- The per-sentence-pair entry appended by `BleuScorer.cache_stats`:
    precisions for n-gram orders `1 .. len(weights)`. -/
def BleuScorer.sentStats (W : BleuScorer) (r o : List String) : BleuStats :=
  ⟨r.length, o.length, (List.range W.weights.length).map
    (fun k => bleu_precision r o (k + 1))⟩

/-- `BleuScorer.cache_stats` (scorers.py lines 162-186): per-sentence
    sufficient statistics over `zip(ref, out)` (which silently truncates to
    the shorter corpus), after optional lowercasing. -/
def BleuScorer.cache_stats (W : BleuScorer) (ref out : List (List String)) :
    List BleuStats :=
  let ref := if W.case_insensitive then lowerCorpus ref else ref
  let out := if W.case_insensitive then lowerCorpus out else out
  List.zipWith (fun r o => W.sentStats r o) ref out

/-- One accumulator of the `for sent_id in sent_ids` loop of
    `BleuScorer.score_cached_corpus` (scorers.py lines 207-215): the sum of
    `f` over the selected cache entries.  The python loop accumulates
    `ref_len`, `out_len` and the `num_prec` / `denom_prec` counters in one
    pass; each is one instance of this fold. -/
def aggBy (f : BleuStats → ℕ) (cache : List BleuStats) (sent_ids : List ℕ) : ℕ :=
  (sent_ids.map (fun i => f (cache.getD i default))).sum

/-- `num_prec[n]` after the accumulation loop. -/
def aggNum (cache : List BleuStats) (sent_ids : List ℕ) (n : ℕ) : ℕ :=
  aggBy (fun st => (st.prec.getD (n - 1) (0, 0)).1) cache sent_ids

/-- `denom_prec[n]` after the accumulation loop. -/
def aggDenom (cache : List BleuStats) (sent_ids : List ℕ) (n : ℕ) : ℕ :=
  aggBy (fun st => (st.prec.getD (n - 1) (0, 0)).2) cache sent_ids

/-- `ref_len` after the accumulation loop. -/
def aggRefLenAux (cache : List BleuStats) (sent_ids : List ℕ) : ℕ :=
  aggBy (fun st => st.ref_len) cache sent_ids

/-- `out_len` after the accumulation loop. -/
def aggOutLenAux (cache : List BleuStats) (sent_ids : List ℕ) : ℕ :=
  aggBy (fun st => st.out_len) cache sent_ids

/-- The contribution of one n-gram order to the weighted log-precision sum:
    `p = num/denom if denom != 0 else 0; p = log(p) if p > 0 else 0`. -/
noncomputable def bleuLogTerm (num denom : ℕ) : ℝ :=
  let p : ℝ := if denom ≠ 0 then (num : ℝ) / (denom : ℝ) else 0
  if 0 < p then Real.log p else 0

/-- `BleuScorer.score_cached_corpus` (scorers.py lines 188-228) on in-range
    sentence ids: `0.0` for an empty cache, `0` when there are no unigram
    matches, otherwise `scale * bp * exp(sum_i w_i * log-term_i)` with the
    brevity penalty `bp = min(1, exp(1 - ref_len/out_len))` (or `0` when
    `out_len == 0`).  The `getD default` reads of the aggregation model
    only the in-range accesses of the python loop; an out-of-range
    `sent_id` raises `IndexError` at `cached_ref_len[sent_id]`
    (scorers.py line 210), which `score_cached_corpus_opt` models. -/
noncomputable def BleuScorer.score_cached_corpus (W : BleuScorer)
    (sent_ids : List ℕ) (cached_stats : List BleuStats) : ℝ :=
  if cached_stats.length = 0 then 0
  else if aggNum cached_stats sent_ids 1 = 0 then 0
  else
    let prec : ℝ := ((List.range W.weights.length).map
      (fun i => (W.weights.getD i 0 : ℝ) *
        bleuLogTerm (aggNum cached_stats sent_ids (i + 1))
          (aggDenom cached_stats sent_ids (i + 1)))).sum
    let ref_len := aggRefLenAux cached_stats sent_ids
    let out_len := aggOutLenAux cached_stats sent_ids
    let bp : ℝ := if out_len ≠ 0
      then min 1 (Real.exp (1 - (ref_len : ℝ) / (out_len : ℝ)))
      else 0
    (global_scorer_scale : ℝ) * bp * Real.exp prec

/-- `BleuScorer.score_corpus` (scorers.py lines 118-131). -/
noncomputable def BleuScorer.score_corpus (W : BleuScorer)
    (ref out : List (List String)) : ℝ :=
  W.score_cached_corpus (List.range ref.length) (W.cache_stats ref out)

/-- `BleuScorer.score_cached_corpus` with the python indexing made
    explicit: after the empty-cache early return, the accumulation loop
    (scorers.py lines 209-215) indexes `cached_ref_len[sent_id]` and
    raises `IndexError` (`none` here) as soon as a sent_id is not a valid
    cache index; on in-range ids it returns the `score_cached_corpus`
    value. -/
noncomputable def BleuScorer.score_cached_corpus_opt (W : BleuScorer)
    (sent_ids : List ℕ) (cached_stats : List BleuStats) : Option ℝ :=
  if cached_stats.length = 0 then some 0
  else if sent_ids.all (fun i => decide (i < cached_stats.length)) then
    some (W.score_cached_corpus sent_ids cached_stats)
  else none

/-- `BleuScorer.score_corpus` through the crash-aware replay: the ids
    passed are `range(len(ref))` while the cache has
    `min(len(ref), len(out))` entries. -/
noncomputable def BleuScorer.score_corpus_opt (W : BleuScorer)
    (ref out : List (List String)) : Option ℝ :=
  W.score_cached_corpus_opt (List.range ref.length) (W.cache_stats ref out)

/-! ### sign_utils.py -/

/-- The id draw of one round of `sign_utils.sample_and_compare`
    (sign_utils.py lines 21-23): `np.random.shuffle(ids)` followed by
    `ids[:int(len(ids)*sample_ratio)]`.  The shuffled order is passed in
    explicitly as `shuffled`; python `int` truncation of the nonnegative
    product is `Int.toNat ⌊_⌋`. -/
def sample_reduced_ids (ids shuffled : List ℕ) (sample_ratio : ℚ) : List ℕ :=
  shuffled.take (Int.toNat ⌊(ids.length : ℚ) * sample_ratio⌋)

/-- The length guard of `sign_utils.eval_with_paired_bootstrap`
    (sign_utils.py lines 62-63): a `ValueError` when the reference and
    either system output differ in length.  The body after the guard (the
    cache computation and the random resampling rounds) is modelled by
    `BleuScorer.cache_stats` / `sample_reduced_ids`. -/
def eval_with_paired_bootstrap_guard (gold sys1 sys2 : List (List String)) :
    Except String Unit :=
  if gold.length ≠ sys1.length ∨ gold.length ≠ sys2.length then
    Except.error "Reference and system outputs should have the same size."
  else Except.ok ()

/-! ### scorers.py : WER scorer -/

/-- The fields of `WERScorer`. -/
structure WERScorer where
  sub_pen : ℚ
  ins_pen : ℚ
  del_pen : ℚ
  case_insensitive : Bool

/-- `WERScorer.__init__` (scorers.py lines 613-617): the `sub_pen`,
    `ins_pen` and `del_pen` arguments are ignored and all three penalties
    are set to `1.0`. -/
def WERScorer.make (sub_pen ins_pen del_pen : ℚ) (case_insensitive : Bool) :
    WERScorer :=
  { sub_pen := 1, ins_pen := 1, del_pen := 1, case_insensitive := case_insensitive }

/-- The DP table of `WERScorer._edit_distance` (scorers.py lines 685-702):
    `edScores W ref out i j` is `scores[i, j]`; row `0` and column `0` are
    `range` initialised, and each inner cell is the minimum of the
    diagonal + substitution cost, upper + deletion penalty and left +
    insertion penalty (the two `if _ < _` comparisons of the source). -/
def edScores (W : WERScorer) (ref out : List String) : ℕ → ℕ → ℚ
  | i, 0 => (i : ℚ)
  | 0, j + 1 => ((j + 1 : ℕ) : ℚ)
  | i + 1, j + 1 =>
    let cost : ℚ := if ref.getD i "" = out.getD j "" then 0 else W.sub_pen
    let my_score := edScores W ref out i j + cost
    let del_score := edScores W ref out i (j + 1) + W.del_pen
    let s1 := if del_score < my_score then del_score else my_score
    let ins_score := edScores W ref out (i + 1) j + W.ins_pen
    if ins_score < s1 then ins_score else s1
  termination_by i j => (i, j)

/-- `WERScorer._edit_distance` (scorers.py lines 679-704). -/
def WERScorer.edit_distance (W : WERScorer) (ref out : List String) : ℚ :=
  let ref := if W.case_insensitive then lowerSent ref else ref
  let out := if W.case_insensitive then lowerSent out else out
  edScores W ref out ref.length out.length

/-- `WERScorer.cache_stats` (scorers.py lines 641-657): per aligned sentence
    pair, `(len(r), edit_distance(r, o))`. -/
def WERScorer.cache_stats (W : WERScorer) (ref out : List (List String)) :
    List (ℕ × ℚ) :=
  List.zipWith (fun r o => (r.length, W.edit_distance r o)) ref out

/-- `WERScorer.score_cached_corpus` (scorers.py lines 659-677): summed edit
    distance over summed reference length on the selected ids, scaled;
    `0.0` for an empty cache or a zero denominator. -/
def WERScorer.score_cached_corpus (_W : WERScorer) (sent_ids : List ℕ)
    (cached_stats : List (ℕ × ℚ)) : ℚ :=
  if cached_stats.length = 0 then 0
  else
    let denom : ℚ := (sent_ids.map (fun i => ((cached_stats.getD i (0, 0)).1 : ℚ))).sum
    let wer := if denom ≠ 0
      then (sent_ids.map (fun i => (cached_stats.getD i (0, 0)).2)).sum / denom
      else 0
    global_scorer_scale * wer

/-- `WERScorer.score_corpus` (scorers.py lines 623-636). -/
def WERScorer.score_corpus (W : WERScorer) (ref out : List (List String)) : ℚ :=
  W.score_cached_corpus (List.range ref.length) (W.cache_stats ref out)

/-- `WERScorer.score_sentence` (scorers.py lines 638-639). -/
def WERScorer.score_sentence (W : WERScorer) (ref out : List String) : ℚ :=
  W.score_corpus [ref] [out]

/-! ### bucketers.py : word bucketers

A concrete `WordBucketer` subclass is modelled by its `calc_bucket`
function together with `len(self.bucket_strs)` and the `case_insensitive`
flag.  `calc_bucket` receives word and label as `Option String` because
`itertools.zip_longest` pads the shorter list with `None`.  The model uses
integer-valued buckets; the list-valued buckets of
`MultiLabelWordBucketer` perform the same increment per listed bucket and
are outside this model. -/

structure WordBucketer where
  calcBucket : Option String → Option String → ℕ
  numBuckets : ℕ
  case_insensitive : Bool

/-- Pad a list with `none` up to length `n` (the building block of
    `itertools.zip_longest`). -/
def padTo {α : Type*} (n : ℕ) (l : List α) : List (Option α) :=
  l.map some ++ List.replicate (n - l.length) none

/-- `itertools.zip_longest` on two lists. -/
def zipLongest2 {α β : Type*} (a : List α) (b : List β) :
    List (Option α × Option β) :=
  let n := max a.length b.length
  (padTo n a).zip (padTo n b)

/-- `itertools.zip_longest` on three lists. -/
def zipLongest3 {α β γ : Type*} (a : List α) (b : List β) (c : List γ) :
    List (Option α × Option β × Option γ) :=
  let n := max a.length (max b.length c.length)
  (padTo n a).zip ((padTo n b).zip (padTo n c))

/-- `ref_pos` of `_calc_trg_matches` (bucketers.py lines 46-50): the
    positions of each word of the reference sentence, in increasing order. -/
def refPositions (ref_sent : List String) (w : String) : List ℕ :=
  (List.range ref_sent.length).filter (fun i => ref_sent.getD i "" = w)

/-- The running state of the matching loop of `_calc_trg_matches` for one
    output sentence: the per-word use counters `out_word_cnts`, the
    accumulated `out_matches` row and the `ref_matches` row. -/
structure TrgMatchState where
  cnts : String → ℕ
  out_row : List ℤ
  ref_row : List ℤ

/-- One iteration of the inner loop of `_calc_trg_matches`
    (bucketers.py lines 53-60) on the `oi`-th output word `w`:  when the
    word occurs in the reference and its use counter is still below the
    number of reference occurrences, match it to the next unused reference
    position; the counter is incremented whenever the word occurs in the
    reference at all. -/
def trgMatchStep (ref_sent : List String) (st : TrgMatchState) (p : ℕ × String) :
    TrgMatchState :=
  let ps := refPositions ref_sent p.2
  if ps.length ≠ 0 then
    let c := st.cnts p.2
    if c < ps.length then
      { cnts := Function.update st.cnts p.2 (c + 1),
        out_row := st.out_row ++ [(ps.getD c 0 : ℤ)],
        ref_row := st.ref_row.set (ps.getD c 0) (p.1 : ℤ) }
    else
      { st with cnts := Function.update st.cnts p.2 (c + 1),
                out_row := st.out_row ++ [-1] }
  else { st with out_row := st.out_row ++ [-1] }

/-- `_calc_trg_matches` (bucketers.py lines 45-61) restricted to a single
    output sentence (each output sentence is processed independently):
    returns `(out_matches[oai], ref_matches[oai])`, `-1` marking unmatched
    positions. -/
def trgMatchSent (ref_sent out_sent : List String) : List ℤ × List ℤ :=
  let final := out_sent.enum.foldl (trgMatchStep ref_sent)
    ⟨fun _ => 0, [], List.replicate ref_sent.length (-1)⟩
  (final.out_row, final.ref_row)

/-- The three bucket tallies returned by the per-sentence matchers
    (`my_ref_total`, `my_out_totals`, `my_out_matches`), as functions of
    the bucket id (and output index for the latter two). -/
structure SentTallies where
  ref_total : ℕ → ℕ
  out_totals : ℕ → ℕ → ℕ
  out_matches : ℕ → ℕ → ℕ

/-- Pointwise sum of tallies (the `+=` accumulation of `calc_statistics`). -/
def SentTallies.add (t u : SentTallies) : SentTallies :=
  ⟨fun b => t.ref_total b + u.ref_total b,
   fun oi b => t.out_totals oi b + u.out_totals oi b,
   fun oi b => t.out_matches oi b + u.out_matches oi b⟩

/-- The all-zero tallies (`np.zeros` initialisation of `calc_statistics`). -/
def SentTallies.zero : SentTallies :=
  ⟨fun _ => 0, fun _ _ => 0, fun _ _ => 0⟩

/-- `_calc_trg_buckets_and_matches` (bucketers.py lines 63-104), keeping the
    three tallies it returns (the last three returned components are the
    intermediates `ref_buckets, out_buckets, out_matches`, which
    `calc_statistics` discards). -/
def calc_trg_buckets_and_matches (B : WordBucketer)
    (ref_sent : List String) (ref_label : List String)
    (out_sents : List (List String)) (out_labels : List (List String)) :
    SentTallies :=
  let ref_sent := if B.case_insensitive then lowerSent ref_sent else ref_sent
  let out_sents := if B.case_insensitive then out_sents.map lowerSent else out_sents
  let out_labels := if ref_label = [] then out_sents.map (fun _ => []) else out_labels
  let out_match_rows := out_sents.map (fun o => (trgMatchSent ref_sent o).1)
  let ref_buckets : List ℕ :=
    (zipLongest2 ref_sent ref_label).map (fun p => B.calcBucket p.1 p.2)
  let out_buckets : List (List ℕ) :=
    (List.range out_sents.length).map (fun oai =>
      (zipLongest3 (out_sents.getD oai []) (out_labels.getD oai [])
          (out_match_rows.getD oai [])).map (fun q =>
        if q.2.2.getD (-1) < 0 then B.calcBucket q.1 q.2.1
        else ref_buckets.getD (q.2.2.getD (-1)).toNat 0))
  { ref_total := fun b => ref_buckets.count b
    out_totals := fun oi b =>
      ((out_buckets.getD oi []).zip (out_match_rows.getD oi [])).countP
        (fun q => q.1 = b)
    out_matches := fun oi b =>
      ((out_buckets.getD oi []).zip (out_match_rows.getD oi [])).countP
        (fun q => q.1 = b ∧ 0 ≤ q.2) }

/-- The bucket of the source word at position `si`
    (`calc_bucket(src_word, label=src_lab[src_index] if src_lab else None)`). -/
def srcBucketAt (B : WordBucketer) (src_sent src_lab : List String) (si : ℕ) : ℕ :=
  B.calcBucket (some (src_sent.getD si ""))
    (if src_lab ≠ [] then some (src_lab.getD si "") else none)

/-- `_calc_src_buckets_and_matches` (bucketers.py lines 106-135), keeping
    the three tallies it returns.  `src_aligns[i]` collects, in order, the
    target positions aligned to source position `i`; `my_out_totals` is the
    broadcast copy of `my_ref_total`; a source word counts as matched for an
    output when it has at least one aligned reference word and all of them
    were matched (`ref_matches[x] >= 0`). -/
def calc_src_buckets_and_matches (B : WordBucketer)
    (src_sent : List String) (src_label : List String)
    (ref_sent : List String) (ref_aligns : List (ℕ × ℕ))
    (out_sents : List (List String)) : SentTallies :=
  let src_sent := if B.case_insensitive then lowerSent src_sent else src_sent
  let ref_sent := if B.case_insensitive then lowerSent ref_sent else ref_sent
  let out_sents := if B.case_insensitive then out_sents.map lowerSent else out_sents
  let ref_match_rows := out_sents.map (fun o => (trgMatchSent ref_sent o).2)
  let src_buckets : List ℕ :=
    (zipLongest2 src_sent src_label).map (fun p => B.calcBucket p.1 p.2)
  let src_aligns : List (List ℕ) :=
    (List.range src_sent.length).map
      (fun i => (ref_aligns.filter (fun a => a.1 = i)).map (fun a => a.2))
  { ref_total := fun b => src_buckets.count b
    out_totals := fun _ b => src_buckets.count b
    out_matches := fun oi b =>
      (src_buckets.zip src_aligns).countP
        (fun q => q.1 = b ∧ q.2 ≠ [] ∧
          ∀ x ∈ q.2, 0 ≤ (ref_match_rows.getD oi []).getD x (-1)) }

/-- The inputs of one `calc_statistics` call (bucketers.py lines 137-202).
    Optional arguments are plain lists with `[]` for python's falsy
    `None`/empty (the code only tests their truthiness). -/
structure StatsInput where
  ref : List (List String)
  outs : List (List (List String))
  src : List (List String)
  ref_labels : List (List String)
  out_labels : List (List (List String))
  ref_aligns : List (List (ℕ × ℕ))
  src_labels : List (List String)

/-- The tallies contributed by sentence `rsi` in the loop of
    `calc_statistics` (bucketers.py lines 182-198): source mode when `src`
    is truthy, target mode otherwise. -/
def calc_statistics_sent (B : WordBucketer) (I : StatsInput) (rsi : ℕ) :
    SentTallies :=
  if I.src ≠ [] then
    calc_src_buckets_and_matches B (I.src.getD rsi [])
      (if I.src_labels ≠ [] then I.src_labels.getD rsi [] else [])
      (I.ref.getD rsi []) (I.ref_aligns.getD rsi [])
      (I.outs.map (fun x => x.getD rsi []))
  else
    calc_trg_buckets_and_matches B (I.ref.getD rsi [])
      (I.ref_labels.getD rsi []) (I.outs.map (fun x => x.getD rsi []))
      (if I.out_labels ≠ [] then I.out_labels.map (fun x => x.getD rsi []) else [])

/-- The number of loop iterations of `calc_statistics`: the length of
    `zip_longest(ref, ref_labels if ref_labels else [])`. -/
def calc_statistics_len (I : StatsInput) : ℕ :=
  max I.ref.length I.ref_labels.length

/-- The summed `ref_total` / `out_totals` / `out_matches` accumulated by
    `calc_statistics` (bucketers.py lines 173-198). -/
def calc_statistics_tallies (B : WordBucketer) (I : StatsInput) : SentTallies :=
  ((List.range (calc_statistics_len I)).map
    (fun rsi => calc_statistics_sent B I rsi)).foldl SentTallies.add
    SentTallies.zero

/-- The recall/precision/F1 derivation shared by `calc_statistics`
    (bucketers.py lines 208-214) and `calc_source_bucketed_matches`
    (bucketers.py lines 369-375): all three are `0.0` when the match count
    is `0`; otherwise `rec = mcnt/rcnt`, `prec = mcnt/ocnt`,
    `fmeas = 2*prec*rec/(prec+rec)`.  `none` models the python
    `ZeroDivisionError` raised when a divisor is `0`. -/
def deriveStats (mcnt rcnt ocnt : ℕ) : Option (ℚ × ℚ × ℚ) :=
  if mcnt = 0 then some (0, 0, 0)
  else if rcnt = 0 then none
  else if ocnt = 0 then none
  else
    let rc := (mcnt : ℚ) / (rcnt : ℚ)
    let pc := (mcnt : ℚ) / (ocnt : ℚ)
    some (rc, pc, 2 * pc * rc / (pc + rc))

/-- The per-system, per-bucket result rows of `calc_statistics`
    (bucketers.py lines 204-217): each entry is
    `(mcnt, rcnt, ocnt, rec, prec, fmeas)` (or `none` on a
    `ZeroDivisionError`). -/
def calc_statistics (B : WordBucketer) (I : StatsInput) :
    List (List (Option (ℕ × ℕ × ℕ × ℚ × ℚ × ℚ))) :=
  let t := calc_statistics_tallies B I
  (List.range I.outs.length).map (fun oi =>
    (List.range B.numBuckets).map (fun bi =>
      (deriveStats (t.out_matches oi bi) (t.ref_total bi) (t.out_totals oi bi)).map
        (fun s => (t.out_matches oi bi, t.ref_total bi, t.out_totals oi bi,
          s.1, s.2.1, s.2.2))))

/-- The per-sentence `[both, ref, out]` bucket tally of
    `calc_source_bucketed_matches` (bucketers.py lines 344-367): `ref_cnt`
    counts the (optionally lowered) reference words; each `out_align` pair
    `(src_index, trg_index)` adds to `out` at the bucket of the source
    word, and to `both` as well when the (optionally lowered) output word
    still has a positive count in `ref_cnt`, which is then decremented;
    each `ref_align` pair adds to `ref` at the bucket of its source word. -/
def srcBucketedSentTally (B : WordBucketer)
    (src_sent ref_sent out_sent : List String)
    (ref_align out_align : List (ℕ × ℕ)) (src_lab : List String) :
    ℕ → ℕ × ℕ × ℕ :=
  let ref_cnt0 : String → ℕ :=
    fun w => (if B.case_insensitive then lowerSent ref_sent else ref_sent).count w
  let step := fun (st : (String → ℕ) × (ℕ → ℕ × ℕ)) (a : ℕ × ℕ) =>
    let word := if B.case_insensitive
      then (out_sent.getD a.2 "").toLower else out_sent.getD a.2 ""
    let bucket := srcBucketAt B src_sent src_lab a.1
    if 0 < st.1 word then
      (Function.update st.1 word (st.1 word - 1),
       fun b => if b = bucket
         then ((st.2 b).1 + 1, (st.2 b).2 + 1) else st.2 b)
    else
      (st.1, fun b => if b = bucket then ((st.2 b).1, (st.2 b).2 + 1) else st.2 b)
  let res := out_align.foldl step (ref_cnt0, fun _ => (0, 0))
  fun b => ((res.2 b).1,
    ref_align.countP (fun a => srcBucketAt B src_sent src_lab a.1 = b),
    (res.2 b).2)

/-- The summed `[both, ref, out]` tallies of
    `calc_source_bucketed_matches` over the whole corpus (the sentence loop
    accumulates into `matches`; each sentence's contribution is
    independent, `ref_cnt` being reset per sentence). -/
def srcBucketedTally (B : WordBucketer) (src ref out : List (List String))
    (ref_aligns out_aligns : List (List (ℕ × ℕ)))
    (src_labels : List (List String)) (b : ℕ) : ℕ × ℕ × ℕ :=
  let n := max src.length (max ref.length (max out.length
    (max ref_aligns.length (max out_aligns.length src_labels.length))))
  ((List.range n).map (fun i =>
    srcBucketedSentTally B (src.getD i []) (ref.getD i []) (out.getD i [])
      (ref_aligns.getD i []) (out_aligns.getD i []) (src_labels.getD i []) b)).foldl
    (fun acc t => (acc.1 + t.1, acc.2.1 + t.2.1, acc.2.2 + t.2.2)) (0, 0, 0)

/-- `calc_source_bucketed_matches` (bucketers.py lines 322-376): per bucket,
    the tallies with the derived recall/precision/F1 (`none` on a
    `ZeroDivisionError`). -/
def calc_source_bucketed_matches (B : WordBucketer)
    (src ref out : List (List String))
    (ref_aligns out_aligns : List (List (ℕ × ℕ)))
    (src_labels : List (List String)) :
    List (Option (ℕ × ℕ × ℕ × ℚ × ℚ × ℚ)) :=
  (List.range B.numBuckets).map (fun b =>
    let t := srcBucketedTally B src ref out ref_aligns out_aligns src_labels b
    (deriveStats t.1 t.2.1 t.2.2).map
      (fun s => (t.1, t.2.1, t.2.2, s.1, s.2.1, s.2.2)))

/-- Sentence-range splitting of a `calc_statistics` input: the first `k`
    sentences of every per-sentence list. -/
def StatsInput.takeSents (I : StatsInput) (k : ℕ) : StatsInput :=
  ⟨I.ref.take k, I.outs.map (fun x => x.take k), I.src.take k,
   I.ref_labels.take k, I.out_labels.map (fun x => x.take k),
   I.ref_aligns.take k, I.src_labels.take k⟩

/-- Sentence-range splitting of a `calc_statistics` input: the sentences
    from `k` on. -/
def StatsInput.dropSents (I : StatsInput) (k : ℕ) : StatsInput :=
  ⟨I.ref.drop k, I.outs.map (fun x => x.drop k), I.src.drop k,
   I.ref_labels.drop k, I.out_labels.map (fun x => x.drop k),
   I.ref_aligns.drop k, I.src_labels.drop k⟩

/-- A concrete single-bucket bucketer (every word in bucket `0`), used to
    evaluate the embedding on concrete inputs. -/
def exBucketer : WordBucketer := ⟨fun _ _ => 0, 1, false⟩

/-- A concrete two-sentence target-mode `calc_statistics` input. -/
def exInput : StatsInput :=
  ⟨[["a"], ["b"]], [[["a"], ["c"]]], [], [], [], [], []⟩

/-- A concrete one-sentence target-mode `calc_statistics` input. -/
def exInput1 : StatsInput := ⟨[["a"]], [[["a"]]], [], [], [], [], []⟩

end CompareMT

/-! ## Theorems -/

namespace CompareMT

/-- **C4**: for all count dictionaries, every smoothing constant `alpha > 0`
    and every key `k`, the salience scores of `k` under the two argument
    orders sum to exactly `1` in exact rational arithmetic. -/
theorem C4_salience_swap_sum_one (dict1 dict2 : String → ℕ) (alpha : ℚ)
    (halpha : 0 < alpha) (k : String) :
    extract_salient_features dict1 dict2 alpha k
      + extract_salient_features dict2 dict1 alpha k = 1 := by
  unfold extract_salient_features
  have h1 : (0:ℚ) ≤ (dict1 k : ℚ) := by positivity
  have h2 : (0:ℚ) ≤ (dict2 k : ℚ) := by positivity
  have hden : ((dict1 k : ℚ) + (dict2 k : ℚ) + 2 * alpha) ≠ 0 := by nlinarith
  have hden2 : ((dict2 k : ℚ) + (dict1 k : ℚ) + 2 * alpha) ≠ 0 := by nlinarith
  field_simp
  ring

/-- Witness for C4 at a concrete input. -/
theorem C4_salience_swap_sum_one_witness :
    (0:ℚ) < 1 ∧
      extract_salient_features (fun _ => 2) (fun _ => 3) 1 "a"
        + extract_salient_features (fun _ => 3) (fun _ => 2) 1 "a" = 1 :=
  ⟨by norm_num, C4_salience_swap_sum_one (fun _ => 2) (fun _ => 3) 1 (by norm_num) "a"⟩

/-- **C3 counterexample**: on the alignment `[0, 1]` the code returns `1`
    (it counts the pair `(0,1)`, for which `alignment[1] > alignment[0]` is
    true), while the claimed formula counting pairs with
    `alignment[j] > alignment[i]` false yields `0`. -/
theorem C3_kendall_counterexample :
    kendall_tau_distance [0, 1] ≠ kendall_tau_distance_claimed [0, 1] := by
  have h1 : kendall_dis [0, 1] = 1 := by decide
  have h2 : kendall_dis_claimed [0, 1] = 0 := by decide
  unfold kendall_tau_distance kendall_tau_distance_claimed
  rw [h1, h2]
  norm_num

/-- Sums of a function mapped over `List.range` are `Finset.range` sums. -/
theorem sum_map_range {M : Type*} [AddCommMonoid M] (f : ℕ → M) (n : ℕ) :
    ((List.range n).map f).sum = ∑ i ∈ Finset.range n, f i := by
  induction n with
  | zero => simp
  | succ m ih => simp [List.range_succ, Finset.sum_range_succ, ih]

/-- Filtered `List.range` lengths are filtered `Finset.range` cards. -/
theorem length_filter_list_range (n : ℕ) (p : ℕ → Prop) [DecidablePred p] :
    ((List.range n).filter (fun j => decide (p j))).length
      = ((Finset.range n).filter p).card := by
  rfl

/-- The concordant-pair count of `kendall_dis` as a set of index pairs. -/
theorem kendall_dis_eq_card (a : List ℤ) :
    kendall_dis a =
      ((Finset.range a.length ×ˢ Finset.range a.length).filter
        (fun p => p.1 < p.2 ∧ a.getD p.1 0 < a.getD p.2 0)).card := by
  classical
  set n := a.length
  set F := (Finset.range n ×ˢ Finset.range n).filter
    (fun p => p.1 < p.2 ∧ a.getD p.1 0 < a.getD p.2 0) with hF
  have hfib : ∀ x ∈ F, x.1 ∈ Finset.range n := by
    intro x hx
    rw [hF, Finset.mem_filter, Finset.mem_product] at hx
    exact hx.1.1
  have hcard := Finset.card_eq_sum_card_fiberwise hfib
  have hfiber : ∀ i, (F.filter (fun x => x.1 = i)).card
      = ((Finset.range n).filter (fun j => i < j ∧ a.getD i 0 < a.getD j 0)).card := by
    intro i
    have himg : F.filter (fun x => x.1 = i)
        = ((Finset.range n).filter
            (fun j => i < j ∧ a.getD i 0 < a.getD j 0)).image (fun j => (i, j)) := by
      ext x
      rcases x with ⟨x1, x2⟩
      simp only [hF, Finset.mem_filter, Finset.mem_product, Finset.mem_image,
        Finset.mem_range, Prod.mk.injEq]
      constructor
      · rintro ⟨⟨⟨h1, h2⟩, hlt, hval⟩, rfl⟩
        exact ⟨x2, ⟨h2, hlt, hval⟩, rfl, rfl⟩
      · rintro ⟨j, ⟨hj, hlt, hval⟩, rfl, rfl⟩
        exact ⟨⟨⟨lt_trans hlt hj, hj⟩, hlt, hval⟩, rfl⟩
    rw [himg, Finset.card_image_of_injective]
    intro u v huv
    exact (Prod.mk.injEq _ _ _ _ ▸ huv).2
  rw [hcard]
  unfold kendall_dis
  rw [sum_map_range]
  refine Finset.sum_congr rfl (fun i _ => ?_)
  rw [hfiber i]
  rw [List.countP_eq_length_filter, List.filter_filter]
  rw [show (fun j => decide (a.getD i 0 < a.getD j 0) && decide (i < j))
      = (fun j => decide (i < j ∧ a.getD i 0 < a.getD j 0)) from by
    funext j; by_cases h1 : i < j <;> by_cases h2 : a.getD i 0 < a.getD j 0 <;>
      simp [h1, h2]]
  exact length_filter_list_range n _

/-- **C3 (amended)**: the RIBES rank-correlation of an alignment of length
    `n` is `0` for `n ≤ 1`, and for `n ≥ 2` it equals
    `2 * (#concordant pairs) / (n^2 - n)`, where a pair `(i, j)` with
    `i < j` is concordant exactly when `alignment[j] > alignment[i]` holds
    (so higher, not lower, values indicate fewer inversions). -/
theorem C3_kendall_amended (a : List ℤ) :
    (a.length ≤ 1 → kendall_tau_distance a = 0) ∧
    (2 ≤ a.length →
      kendall_tau_distance a =
        2 * (((Finset.range a.length ×ˢ Finset.range a.length).filter
            (fun p => p.1 < p.2 ∧ a.getD p.1 0 < a.getD p.2 0)).card : ℚ)
          / ((a.length : ℚ) ^ 2 - a.length)) := by
  constructor
  · intro h
    unfold kendall_tau_distance
    simp [h]
  · intro h
    unfold kendall_tau_distance
    rw [if_neg (by omega)]
    rw [kendall_dis_eq_card]
    ring_nf

/-- Witness for C3 (amended) at the alignment `[3, 1, 2]`. -/
theorem C3_kendall_amended_witness :
    2 ≤ ([3, 1, 2] : List ℤ).length ∧
      kendall_tau_distance [3, 1, 2] =
        2 * (((Finset.range ([3, 1, 2] : List ℤ).length
              ×ˢ Finset.range ([3, 1, 2] : List ℤ).length).filter
            (fun p => p.1 < p.2 ∧
              ([3, 1, 2] : List ℤ).getD p.1 0 < ([3, 1, 2] : List ℤ).getD p.2 0)).card : ℚ)
          / ((([3, 1, 2] : List ℤ).length : ℚ) ^ 2 - ([3, 1, 2] : List ℤ).length) :=
  ⟨by decide, (C3_kendall_amended [3, 1, 2]).2 (by decide)⟩

/-- `if x < y then x else y` is `min`. -/
theorem ite_lt_eq_min (x y : ℚ) : (if x < y then x else y) = min x y := by
  split
  · exact (min_eq_left (le_of_lt (by assumption))).symm
  · exact (min_eq_right (le_of_not_lt (by assumption))).symm

/-- Every cell of the WER DP table is nonnegative when all penalties are. -/
theorem edScores_nonneg (W : WERScorer) (ref out : List String)
    (hs : 0 ≤ W.sub_pen) (hi : 0 ≤ W.ins_pen) (hd : 0 ≤ W.del_pen) :
    ∀ i j, 0 ≤ edScores W ref out i j := by
  intro i j
  induction i, j using edScores.induct W ref out with
  | case1 i => rw [edScores]; positivity
  | case2 j => rw [edScores]; positivity
  | case3 i j hlt ih1 ih2 ih3 =>
    rw [edScores]
    split_ifs <;> linarith
  | case4 i j hlt ih1 ih2 ih3 =>
    rw [edScores]
    split_ifs <;> linarith

/-- Diagonal cells of the table for a sentence against itself are `0`. -/
theorem edScores_diag (W : WERScorer) (s : List String)
    (hs : 0 ≤ W.sub_pen) (hi : 0 ≤ W.ins_pen) (hd : 0 ≤ W.del_pen) :
    ∀ i, edScores W s s i i = 0 := by
  intro i
  induction i with
  | zero => rw [edScores]; norm_num
  | succ i ih =>
    rw [edScores]
    have h1 := edScores_nonneg W s s hs hi hd i (i + 1)
    have h2 := edScores_nonneg W s s hs hi hd (i + 1) i
    simp only [ih, eq_self_iff_true, if_true, add_zero, zero_add]
    split_ifs <;> linarith

/-- With equal insertion and deletion penalties the DP table is symmetric in
    its two sentences. -/
theorem edScores_symm (W : WERScorer) (a b : List String)
    (hid : W.ins_pen = W.del_pen) :
    ∀ i j, edScores W a b i j = edScores W b a j i := by
  intro i j
  induction i, j using edScores.induct W a b with
  | case1 i =>
    cases i with
    | zero => rw [edScores, edScores]
    | succ k => rw [edScores, edScores]
  | case2 j => rw [edScores, edScores]
  | case3 i j c1 c2 c3 c4 c5 hcond ih1 ih2 ih3 =>
    rw [edScores, edScores]
    have hcost : (if b.getD j "" = a.getD i "" then (0:ℚ) else W.sub_pen)
        = (if a.getD i "" = b.getD j "" then (0:ℚ) else W.sub_pen) := by
      by_cases h : a.getD i "" = b.getD j ""
      · rw [if_pos h, if_pos h.symm]
      · rw [if_neg h, if_neg (fun h2 => h h2.symm)]
    simp only [ite_lt_eq_min]
    rw [hcost, ← ih1, ← ih2, ← ih3, hid]
    exact min_left_comm _ _ _
  | case4 i j c1 c2 c3 c4 c5 hcond ih1 ih2 ih3 =>
    rw [edScores, edScores]
    have hcost : (if b.getD j "" = a.getD i "" then (0:ℚ) else W.sub_pen)
        = (if a.getD i "" = b.getD j "" then (0:ℚ) else W.sub_pen) := by
      by_cases h : a.getD i "" = b.getD j ""
      · rw [if_pos h, if_pos h.symm]
      · rw [if_neg h, if_neg (fun h2 => h h2.symm)]
    simp only [ite_lt_eq_min]
    rw [hcost, ← ih1, ← ih2, ← ih3, hid]
    exact min_left_comm _ _ _

/-- **C7**: for any `WERScorer` as constructed (all penalties are the unit
    default), the edit distance of a sentence with itself is `0`, and the
    edit distance is symmetric in its two arguments. -/
theorem C7_wer_edit_distance_props (p q r : ℚ) (ci : Bool) (s a b : List String) :
    (WERScorer.make p q r ci).edit_distance s s = 0 ∧
    (WERScorer.make p q r ci).edit_distance a b
      = (WERScorer.make p q r ci).edit_distance b a := by
  constructor
  · simp only [WERScorer.edit_distance]
    exact edScores_diag (WERScorer.make p q r ci) _
      (by norm_num [WERScorer.make]) (by norm_num [WERScorer.make])
      (by norm_num [WERScorer.make]) _
  · simp only [WERScorer.edit_distance]
    exact edScores_symm (WERScorer.make p q r ci) _ _ rfl _ _

/-- **C10**: `WERScorer.__init__` ignores its penalty arguments, so any two
    penalty configurations give the same scorer, hence identical edit
    distances and WER scores on every input. -/
theorem C10_wer_penalties_ignored (p1s p1i p1d p2s p2i p2d : ℚ) (ci : Bool)
    (ref out : List (List String)) (r o : List String) :
    WERScorer.make p1s p1i p1d ci = WERScorer.make p2s p2i p2d ci ∧
    (WERScorer.make p1s p1i p1d ci).edit_distance r o
      = (WERScorer.make p2s p2i p2d ci).edit_distance r o ∧
    (WERScorer.make p1s p1i p1d ci).score_corpus ref out
      = (WERScorer.make p2s p2i p2d ci).score_corpus ref out ∧
    (WERScorer.make p1s p1i p1d ci).score_sentence r o
      = (WERScorer.make p2s p2i p2d ci).score_sentence r o :=
  ⟨rfl, rfl, rfl, rfl⟩

/-- **C2 counterexample**: with `n = 3` and `sample_ratio = 1/2` (and any
    shuffle, here `[2, 0, 1]`), the round draws `int(3 * 0.5) = 1` id, not
    `ceil(3 * 0.5) = 2` as the claim states. -/
theorem C2_draw_counterexample :
    (sample_reduced_ids (List.range 3) [2, 0, 1] (1 / 2)).length
      ≠ ⌈((List.range 3).length : ℚ) * (1 / 2)⌉₊ := by
  have hceil : ⌈((List.range 3).length : ℚ) * (1 / 2)⌉₊ = 2 := by
    rw [List.length_range, Nat.ceil_eq_iff (by norm_num)]
    norm_num
  have hfloor : ⌊((List.range 3).length : ℚ) * (1 / 2)⌋ = 1 := by
    rw [List.length_range]
    norm_num
  rw [hceil]
  unfold sample_reduced_ids
  rw [hfloor]
  decide

/-- **C2 (amended)**: each round of the paired bootstrap draws the first
    `int(n * sample_ratio)` (that is, `⌊n * ratio⌋`, not `⌈n * ratio⌉`)
    elements of a uniform shuffle of `[0, n)`: exactly `⌊n * ratio⌋`
    distinct ids below `n`, sampled without replacement — a single round's
    draw never contains repeated ids. -/
theorem C2_draw_amended (n : ℕ) (ratio : ℚ) (shuffled : List ℕ)
    (hperm : shuffled.Perm (List.range n)) (h0 : 0 ≤ ratio) (h1 : ratio ≤ 1) :
    (sample_reduced_ids (List.range n) shuffled ratio).length
        = Int.toNat ⌊(n : ℚ) * ratio⌋ ∧
      (sample_reduced_ids (List.range n) shuffled ratio).Nodup ∧
      ∀ x ∈ sample_reduced_ids (List.range n) shuffled ratio, x < n := by
  have hlen : shuffled.length = n := by simpa using hperm.length_eq
  have hfle : ⌊(n : ℚ) * ratio⌋ ≤ (n : ℤ) := by
    have hmul : (n : ℚ) * ratio ≤ (n : ℚ) := by
      calc (n : ℚ) * ratio ≤ (n : ℚ) * 1 := by
            apply mul_le_mul_of_nonneg_left h1 (by positivity)
        _ = (n : ℚ) := mul_one _
    calc ⌊(n : ℚ) * ratio⌋ ≤ ⌊(n : ℚ)⌋ := Int.floor_le_floor hmul
      _ = (n : ℤ) := Int.floor_natCast n
  have hle : Int.toNat ⌊(n : ℚ) * ratio⌋ ≤ n := by omega
  refine ⟨?_, ?_, ?_⟩
  · unfold sample_reduced_ids
    rw [List.length_take, List.length_range, hlen]
    omega
  · exact ((List.take_sublist _ _).nodup
      ((hperm.nodup_iff).mpr (List.nodup_range n)))
  · intro x hx
    have hx2 : x ∈ shuffled := List.mem_of_mem_take hx
    simpa using hperm.mem_iff.mp hx2

/-- Witness for C2 (amended) at `n = 4`, `ratio = 1/2`, a concrete shuffle. -/
theorem C2_draw_amended_witness :
    (sample_reduced_ids (List.range 4) [3, 1, 0, 2] (1 / 2)).length
        = Int.toNat ⌊((4 : ℕ) : ℚ) * (1 / 2)⌋ ∧
      (sample_reduced_ids (List.range 4) [3, 1, 0, 2] (1 / 2)).Nodup ∧
      ∀ x ∈ sample_reduced_ids (List.range 4) [3, 1, 0, 2] (1 / 2), x < 4 :=
  C2_draw_amended 4 (1 / 2) [3, 1, 0, 2] (by decide) (by norm_num) (by norm_num)

/-- `zipWith` only consumes the common prefix of its two lists. -/
theorem zipWith_truncate {α β γ : Type*} (f : α → β → γ) :
    ∀ (l : List α) (l' : List β),
      List.zipWith f l l' = List.zipWith f (l.take l'.length) (l'.take l.length)
  | [], _ => by simp
  | _ :: _, [] => by simp
  | a :: l, b :: l' => by
    simp only [List.length_cons, List.take_succ_cons, List.zipWith_cons_cons]
    exact congrArg _ (zipWith_truncate f l l')

/-- The length of the BLEU statistics cache is the shorter corpus length. -/
theorem cache_stats_length (W : BleuScorer) (ref out : List (List String)) :
    (W.cache_stats ref out).length = min ref.length out.length := by
  unfold BleuScorer.cache_stats
  cases W.case_insensitive <;> simp [lowerCorpus]

/-- **C8 counterexample**: `BleuScorer.cache_stats` on corpora of unequal
    sentence counts raises nothing; it silently computes the statistics of
    the zip-truncated corpora (here: 2 references against 1 output yield the
    1-sentence cache of the truncated pair). -/
theorem C8_shape_counterexample :
    BleuScorer.cache_stats ⟨[1], false⟩ [["a"], ["b"]] [["a"]]
        = BleuScorer.cache_stats ⟨[1], false⟩ [["a"]] [["a"]] ∧
      (BleuScorer.cache_stats ⟨[1], false⟩ [["a"], ["b"]] [["a"]]).length = 1 :=
  ⟨rfl, rfl⟩

/-- On in-range sentence ids the replay never indexes out of the cache, so
    the crash-aware replay returns exactly the in-range score. -/
theorem score_cached_corpus_opt_of_in_range (W : BleuScorer)
    (sent_ids : List ℕ) (cached_stats : List BleuStats)
    (h : ∀ i ∈ sent_ids, i < cached_stats.length) :
    W.score_cached_corpus_opt sent_ids cached_stats
      = some (W.score_cached_corpus sent_ids cached_stats) := by
  unfold BleuScorer.score_cached_corpus_opt
  by_cases h0 : cached_stats.length = 0
  · rw [if_pos h0]
    unfold BleuScorer.score_cached_corpus
    rw [if_pos h0]
  · rw [if_neg h0, if_pos]
    rw [List.all_eq_true]
    intro i hi
    simpa using h i hi

/-- `BleuScorer.score_corpus` raises `IndexError` exactly when the output
    corpus is nonempty and shorter than the reference corpus: the cache
    then has `len(out)` entries while the replay runs over
    `range(len(ref))`.  (An empty output means an empty cache, which hits
    the `0.0` early return instead.) -/
theorem score_corpus_indexerror_iff (W : BleuScorer)
    (ref out : List (List String)) :
    W.score_corpus_opt ref out = none
      ↔ 0 < out.length ∧ out.length < ref.length := by
  unfold BleuScorer.score_corpus_opt BleuScorer.score_cached_corpus_opt
  simp only [cache_stats_length, List.all_eq_true, List.mem_range,
    decide_eq_true_eq]
  by_cases h0 : min ref.length out.length = 0
  · rw [if_pos h0]
    constructor
    · intro h
      exact absurd h (by simp)
    · rintro ⟨hpos, hlt⟩
      exact absurd h0 (by omega)
  · rw [if_neg h0]
    by_cases h1 : ∀ i, i < ref.length → i < min ref.length out.length
    · rw [if_pos h1]
      constructor
      · intro h
        exact absurd h (by simp)
      · rintro ⟨hpos, hlt⟩
        exact absurd (h1 out.length hlt) (by omega)
    · rw [if_neg h1]
      push_neg at h1
      obtain ⟨i, hi1, hi2⟩ := h1
      exact ⟨fun _ => by constructor <;> omega, fun _ => rfl⟩

/-- **C8 (amended)**: `eval_with_paired_bootstrap` raises `ValueError` when
    the reference and either system output differ in sentence count (and
    proceeds exactly when the lengths agree).  `BleuScorer.cache_stats`
    performs no length check: it silently computes the statistics of the
    zip-truncated corpora.  `BleuScorer.score_corpus` does not fail fast
    with a descriptive error either: when `0 < len(out) < len(ref)` it
    raises an `IndexError` while replaying the cache
    (`cached_ref_len[sent_id]`, scorers.py line 210), and when
    `len(ref) <= len(out)` it proceeds silently on the truncated corpora. -/
theorem C8_shape_amended (gold sys1 sys2 ref out : List (List String))
    (W : BleuScorer) :
    ((gold.length ≠ sys1.length ∨ gold.length ≠ sys2.length) →
      eval_with_paired_bootstrap_guard gold sys1 sys2
        = Except.error "Reference and system outputs should have the same size.") ∧
    (gold.length = sys1.length ∧ gold.length = sys2.length →
      eval_with_paired_bootstrap_guard gold sys1 sys2 = Except.ok ()) ∧
    (W.cache_stats ref out).length = min ref.length out.length ∧
    W.cache_stats ref out
      = W.cache_stats (ref.take out.length) (out.take ref.length) ∧
    (W.score_corpus_opt ref out = none
      ↔ 0 < out.length ∧ out.length < ref.length) ∧
    (ref.length ≤ out.length →
      W.score_corpus_opt ref out = some (W.score_corpus ref out)) := by
  refine ⟨?_, ?_, cache_stats_length W ref out, ?_,
    score_corpus_indexerror_iff W ref out, ?_⟩
  · intro h
    unfold eval_with_paired_bootstrap_guard
    rw [if_pos h]
  · intro h
    unfold eval_with_paired_bootstrap_guard
    rw [if_neg (by push_neg; exact h)]
  · unfold BleuScorer.cache_stats
    cases W.case_insensitive
    · simp only [Bool.false_eq_true, if_false]
      exact zipWith_truncate _ ref out
    · simp only [if_true]
      rw [zipWith_truncate]
      simp [lowerCorpus, List.map_take]
  · intro hle
    exact score_cached_corpus_opt_of_in_range W _ _ (by
      intro i hi
      rw [cache_stats_length]
      have := List.mem_range.mp hi
      omega)

/-- Witness for C8 (amended): the guard fires on a concrete length mismatch. -/
theorem C8_shape_amended_witness :
    eval_with_paired_bootstrap_guard [["a"], ["b"]] [["a"]] [["a"]]
      = Except.error "Reference and system outputs should have the same size." :=
  (C8_shape_amended [["a"], ["b"]] [["a"]] [["a"]] [] [] ⟨[1], false⟩).1 (by decide)

/-- Mapping an index function over `List.range l.length` traverses `l`. -/
theorem range_getD_map {α β : Type*} (l : List α) (F : α → β) (d : α) :
    (List.range l.length).map (fun j => F (l.getD j d)) = l.map F := by
  induction l with
  | nil => simp
  | cons a t ih =>
    simp only [List.length_cons, List.range_succ_eq_map, List.map_cons,
      List.map_map, List.getD_cons_zero, List.map]
    refine congrArg _ ?_
    calc (List.range t.length).map ((fun j => F ((a :: t).getD j d)) ∘ Nat.succ)
        = (List.range t.length).map (fun j => F (t.getD j d)) := by
          refine List.map_congr_left (fun j _ => ?_)
          simp [Function.comp, List.getD_cons_succ]
      _ = t.map F := ih

/-- `getD` through `map`, inside the list. -/
theorem getD_map_of_lt {α β : Type*} (f : α → β) (l : List α) (i : ℕ)
    (h : i < l.length) (d : β) (d' : α) :
    (l.map f).getD i d = f (l.getD i d') := by
  rw [List.getD_eq_getElem (l.map f) d (by simpa using h),
    List.getElem_map, List.getD_eq_getElem l d' h]

/-- `getD` through `zipWith`, inside both lists. -/
theorem getD_zipWith_of_lt {α β γ : Type*} (f : α → β → γ) (l : List α)
    (l' : List β) (i : ℕ) (h1 : i < l.length) (h2 : i < l'.length)
    (d : γ) (da : α) (db : β) :
    (List.zipWith f l l').getD i d = f (l.getD i da) (l'.getD i db) := by
  rw [List.getD_eq_getElem (List.zipWith f l l') d
    (by rw [List.length_zipWith]; omega)]
  rw [List.getElem_zipWith, List.getD_eq_getElem l da h1,
    List.getD_eq_getElem l' db h2]

/-- Selecting the sub-corpora at ids `S` and computing their BLEU cache is
    selecting the entries at `S` of the full cache. -/
theorem cache_stats_select (W : BleuScorer) (ref out : List (List String))
    (S : List ℕ) (hlen : ref.length = out.length)
    (hS : ∀ i ∈ S, i < ref.length) :
    W.cache_stats (S.map (fun i => ref.getD i [])) (S.map (fun i => out.getD i []))
      = S.map (fun i => (W.cache_stats ref out).getD i default) := by
  unfold BleuScorer.cache_stats
  cases hci : W.case_insensitive
  · simp only [Bool.false_eq_true, if_false]
    rw [List.zipWith_map, List.zipWith_same]
    refine List.map_congr_left (fun i hi => ?_)
    exact (getD_zipWith_of_lt _ ref out i (hS i hi) (hlen ▸ hS i hi) _ [] []).symm
  · simp only [if_true, lowerCorpus, List.map_map]
    rw [List.zipWith_map, List.zipWith_same]
    refine List.map_congr_left (fun i hi => ?_)
    have hr : i < (ref.map lowerSent).length := by simpa using hS i hi
    have ho : i < (out.map lowerSent).length := by simpa using (hlen ▸ hS i hi)
    rw [getD_zipWith_of_lt _ (ref.map lowerSent) (out.map lowerSent) i hr ho _ [] []]
    rw [getD_map_of_lt lowerSent ref i (hS i hi) [] []]
    rw [getD_map_of_lt lowerSent out i (hlen ▸ hS i hi) [] []]
    rfl

/-- Accumulating over the selected entries of the full cache equals
    accumulating over all entries of the selected sub-cache. -/
theorem aggBy_select (f : BleuStats → ℕ) (cache : List BleuStats) (S : List ℕ) :
    aggBy f (S.map (fun i => cache.getD i default)) (List.range S.length)
      = aggBy f cache S := by
  unfold aggBy
  have h : (List.range S.length)
      = List.range (S.map (fun i => cache.getD i default)).length := by simp
  rw [h, range_getD_map (S.map (fun i => cache.getD i default)) f default,
    List.map_map]
  rfl

/-- **C1**: the BLEU cache/replay split is exact: for equal-length corpora
    and any list of in-range sentence ids `S`, replaying the cached
    statistics at `S` gives exactly the score of the sub-corpora selected
    at `S`; over all indices it gives exactly `score_corpus ref out`. -/
theorem C1_bleu_cache_replay (W : BleuScorer) (ref out : List (List String))
    (S : List ℕ) (hlen : ref.length = out.length)
    (hS : ∀ i ∈ S, i < ref.length) :
    W.score_cached_corpus S (W.cache_stats ref out)
        = W.score_corpus (S.map (fun i => ref.getD i []))
            (S.map (fun i => out.getD i [])) ∧
      W.score_cached_corpus (List.range ref.length) (W.cache_stats ref out)
        = W.score_corpus ref out := by
  refine ⟨?_, rfl⟩
  unfold BleuScorer.score_corpus
  rw [cache_stats_select W ref out S hlen hS]
  simp only [List.length_map]
  by_cases hS0 : S = []
  · subst hS0
    simp only [List.map_nil, List.range_zero]
    unfold BleuScorer.score_cached_corpus
    have hagg : aggNum (W.cache_stats ref out) [] 1 = 0 := rfl
    simp [hagg]
  · have href : 0 < ref.length := by
      rcases S with _ | ⟨i, S'⟩
      · exact absurd rfl hS0
      · exact Nat.lt_of_le_of_lt (Nat.zero_le i) (hS i (by simp))
    have hcne : (W.cache_stats ref out).length ≠ 0 := by
      rw [cache_stats_length, ← hlen]
      omega
    have hsubne :
        (S.map (fun i => (W.cache_stats ref out).getD i default)).length ≠ 0 := by
      simpa using hS0
    have hNum : ∀ n, aggNum (S.map (fun i => (W.cache_stats ref out).getD i default))
        (List.range S.length) n = aggNum (W.cache_stats ref out) S n := by
      intro n
      unfold aggNum
      exact aggBy_select _ _ _
    have hDen : ∀ n, aggDenom (S.map (fun i => (W.cache_stats ref out).getD i default))
        (List.range S.length) n = aggDenom (W.cache_stats ref out) S n := by
      intro n
      unfold aggDenom
      exact aggBy_select _ _ _
    have hRef : aggRefLenAux (S.map (fun i => (W.cache_stats ref out).getD i default))
        (List.range S.length) = aggRefLenAux (W.cache_stats ref out) S := by
      unfold aggRefLenAux
      exact aggBy_select _ _ _
    have hOut : aggOutLenAux (S.map (fun i => (W.cache_stats ref out).getD i default))
        (List.range S.length) = aggOutLenAux (W.cache_stats ref out) S := by
      unfold aggOutLenAux
      exact aggBy_select _ _ _
    unfold BleuScorer.score_cached_corpus
    rw [if_neg hcne, if_neg hsubne]
    simp only [hNum, hDen, hRef, hOut]

/-- Witness for C1 at a concrete corpus pair and id subset. -/
theorem C1_bleu_cache_replay_witness :
    ([["a", "b"], ["c"]] : List (List String)).length
        = ([["a", "x"], ["c"]] : List (List String)).length ∧
      BleuScorer.score_cached_corpus ⟨[1/4, 1/4, 1/4, 1/4], false⟩ [1]
          (BleuScorer.cache_stats ⟨[1/4, 1/4, 1/4, 1/4], false⟩
            [["a", "b"], ["c"]] [["a", "x"], ["c"]])
        = BleuScorer.score_corpus ⟨[1/4, 1/4, 1/4, 1/4], false⟩
            ([1].map (fun i => ([["a", "b"], ["c"]] : List (List String)).getD i []))
            ([1].map (fun i => ([["a", "x"], ["c"]] : List (List String)).getD i [])) :=
  ⟨rfl, (C1_bleu_cache_replay ⟨[1/4, 1/4, 1/4, 1/4], false⟩
    [["a", "b"], ["c"]] [["a", "x"], ["c"]] [1] rfl (by decide)).1⟩

/-- `getD` inside the taken prefix. -/
theorem getD_take_of_lt {α : Type*} {i k : ℕ} (h : i < k) (l : List α) (d : α) :
    (l.take k).getD i d = l.getD i d := by
  rw [List.getD_eq_getElem?_getD, List.getD_eq_getElem?_getD,
    List.getElem?_take, if_pos h]

/-- `getD` after a drop reads the shifted position. -/
theorem getD_drop_shift {α : Type*} (k j : ℕ) (l : List α) (d : α) :
    (l.drop k).getD j d = l.getD (k + j) d := by
  rw [List.getD_eq_getElem?_getD, List.getD_eq_getElem?_getD, List.getElem?_drop]

/-- `getD_take_of_lt` in `getElem?` form. -/
theorem getElem?_getD_take {α : Type*} {i k : ℕ} (h : i < k) (l : List α) (d : α) :
    (l.take k)[i]?.getD d = l[i]?.getD d := by
  rw [List.getElem?_take, if_pos h]

/-- `getD_drop_shift` in `getElem?` form. -/
theorem getElem?_getD_drop {α : Type*} (k j : ℕ) (l : List α) (d : α) :
    (l.drop k)[j]?.getD d = l[k + j]?.getD d := by
  rw [List.getElem?_drop]

/-- Evaluating any additive functional of the tallies through the
    accumulation fold of `calc_statistics`. -/
theorem foldl_add_eval (g : SentTallies → ℕ)
    (hadd : ∀ t u, g (t.add u) = g t + g u) :
    ∀ (l : List SentTallies) (z : SentTallies),
      g (l.foldl SentTallies.add z) = g z + (l.map g).sum := by
  intro l
  induction l with
  | nil => intro z; simp
  | cons t l ih =>
    intro z
    rw [List.foldl_cons, ih, hadd, List.map_cons, List.sum_cons]
    ring

/-- The loop length of `calc_statistics` is the corpus length when the
    label corpus is absent or aligned. -/
theorem calc_statistics_len_eq (I : StatsInput)
    (hlab : I.ref_labels = [] ∨ I.ref_labels.length = I.ref.length) :
    calc_statistics_len I = I.ref.length := by
  unfold calc_statistics_len
  rcases hlab with h | h <;> simp [h]

/-- For `i < k`, sentence `i` of the first-`k` split contributes the same
    tallies as sentence `i` of the whole corpus. -/
theorem calc_statistics_sent_take (B : WordBucketer) (I : StatsInput) (k i : ℕ)
    (hik : i < k) (hk : k ≤ I.ref.length)
    (hsrc : I.src = [] ∨ I.src.length = I.ref.length)
    (hslab : I.src_labels = [] ∨ I.src_labels.length = I.ref.length) :
    calc_statistics_sent B (I.takeSents k) i = calc_statistics_sent B I i := by
  unfold calc_statistics_sent StatsInput.takeSents
  by_cases hs : I.src = []
  · simp only [hs, List.take_nil, ne_eq, not_true_eq_false, if_false,
      List.map_map, Function.comp, getD_take_of_lt hik]
    by_cases hol : I.out_labels = [] <;>
      simp [hol, List.map_eq_nil_iff, getD_take_of_lt hik, List.map_map,
        Function.comp_def, getElem?_getD_take hik]
  · have hn : I.src.length = I.ref.length := hsrc.resolve_left hs
    have hTne : I.src.take k ≠ [] := by
      have : (I.src.take k).length = k := by
        rw [List.length_take, hn]
        omega
      intro hcon
      rw [hcon] at this
      simp at this
      omega
    simp only [ne_eq, hTne, not_false_eq_true, if_true, hs, if_true,
      getD_take_of_lt hik]
    rcases hslab with hsl | hsl
    · simp [hsl, List.map_map, Function.comp_def, getD_take_of_lt hik,
        getElem?_getD_take hik]
    · have hSLne : I.src_labels ≠ [] := by
        intro hcon
        rw [hcon] at hsl
        simp at hsl
        omega
      have hSLTne : I.src_labels.take k ≠ [] := by
        have : (I.src_labels.take k).length = k := by
          rw [List.length_take, hsl]
          omega
        intro hcon
        rw [hcon] at this
        simp at this
        omega
      simp [hSLne, hSLTne, List.map_map, Function.comp_def,
        getD_take_of_lt hik, getElem?_getD_take hik]

/-- For any `j` with `k + j` in range, sentence `j` of the from-`k` split
    contributes the same tallies as sentence `k + j` of the whole corpus. -/
theorem calc_statistics_sent_drop (B : WordBucketer) (I : StatsInput) (k j : ℕ)
    (hkj : k + j < I.ref.length)
    (hsrc : I.src = [] ∨ I.src.length = I.ref.length)
    (hslab : I.src_labels = [] ∨ I.src_labels.length = I.ref.length) :
    calc_statistics_sent B (I.dropSents k) j = calc_statistics_sent B I (k + j) := by
  unfold calc_statistics_sent StatsInput.dropSents
  by_cases hs : I.src = []
  · simp only [hs, List.drop_nil, ne_eq, not_true_eq_false, if_false,
      List.map_map, Function.comp, getD_drop_shift]
    by_cases hol : I.out_labels = [] <;>
      simp [hol, List.map_eq_nil_iff, getD_drop_shift, List.map_map,
        Function.comp_def, getElem?_getD_drop]
  · have hn : I.src.length = I.ref.length := hsrc.resolve_left hs
    have hDne : I.src.drop k ≠ [] := by
      have : (I.src.drop k).length = I.src.length - k := List.length_drop k I.src
      intro hcon
      rw [hcon] at this
      simp at this
      omega
    simp only [ne_eq, hDne, not_false_eq_true, if_true, hs, if_true,
      getD_drop_shift]
    rcases hslab with hsl | hsl
    · simp [hsl, List.map_map, Function.comp_def, getD_drop_shift,
        getElem?_getD_drop]
    · have hSLne : I.src_labels ≠ [] := by
        intro hcon
        rw [hcon] at hsl
        simp at hsl
        omega
      have hSLDne : I.src_labels.drop k ≠ [] := by
        have : (I.src_labels.drop k).length = I.src_labels.length - k :=
          List.length_drop k I.src_labels
        intro hcon
        rw [hcon] at this
        simp at this
        omega
      simp [hSLne, hSLDne, List.map_map, Function.comp_def, getD_drop_shift,
        getElem?_getD_drop]

/-- Master splitting lemma: any additive functional of the summed tallies
    splits across a sentence-range split of the input. -/
theorem calc_statistics_tallies_split (B : WordBucketer) (I : StatsInput)
    (k : ℕ) (hk : k ≤ I.ref.length)
    (hlab : I.ref_labels = [] ∨ I.ref_labels.length = I.ref.length)
    (hsrc : I.src = [] ∨ I.src.length = I.ref.length)
    (hslab : I.src_labels = [] ∨ I.src_labels.length = I.ref.length)
    (g : SentTallies → ℕ) (hadd : ∀ t u, g (t.add u) = g t + g u)
    (hzero : g SentTallies.zero = 0) :
    g (calc_statistics_tallies B I)
      = g (calc_statistics_tallies B (I.takeSents k))
        + g (calc_statistics_tallies B (I.dropSents k)) := by
  unfold calc_statistics_tallies
  rw [foldl_add_eval g hadd, foldl_add_eval g hadd, foldl_add_eval g hadd, hzero]
  simp only [zero_add, List.map_map]
  have hlen1 : calc_statistics_len I = I.ref.length := calc_statistics_len_eq I hlab
  have hlen2 : calc_statistics_len (I.takeSents k) = k := by
    unfold calc_statistics_len StatsInput.takeSents
    simp only [List.length_take]
    rcases hlab with h | h <;> simp [h] <;> omega
  have hlen3 : calc_statistics_len (I.dropSents k) = I.ref.length - k := by
    unfold calc_statistics_len StatsInput.dropSents
    simp only [List.length_drop]
    rcases hlab with h | h <;> simp [h]
  rw [hlen1, hlen2, hlen3]
  have hrange : List.range I.ref.length
      = List.range k ++ (List.range (I.ref.length - k)).map (fun x => k + x) := by
    conv_lhs =>
      rw [show I.ref.length = k + (I.ref.length - k) from
        (Nat.add_sub_cancel' hk).symm]
    exact List.range_add k _
  rw [hrange, List.map_append, List.sum_append, List.map_map]
  refine congrArg₂ (· + ·) ?_ ?_
  · refine congrArg List.sum (List.map_congr_left (fun i hi => ?_))
    exact congrArg g
      (calc_statistics_sent_take B I k i (List.mem_range.mp hi)
        (by omega) hsrc hslab).symm
  · refine congrArg List.sum (List.map_congr_left (fun j hj => ?_))
    have hj2 : k + j < I.ref.length := by
      have := List.mem_range.mp hj
      omega
    exact congrArg g
      (calc_statistics_sent_drop B I k j hj2 hsrc hslab).symm

/-- **C5**: for both the target-side and the source-side word matchers, the
    per-bucket `(matched, ref_total, out_total)` tallies of
    `calc_statistics` are additive over sentence ranges: tallying the first
    `k` sentences and the remaining sentences separately and summing
    bucket-wise equals tallying the whole corpus directly. -/
theorem C5_bucket_tallies_additive (B : WordBucketer) (I : StatsInput) (k : ℕ)
    (hk : k ≤ I.ref.length)
    (hlab : I.ref_labels = [] ∨ I.ref_labels.length = I.ref.length)
    (hsrc : I.src = [] ∨ I.src.length = I.ref.length)
    (hslab : I.src_labels = [] ∨ I.src_labels.length = I.ref.length) :
    ∀ oi b,
      (calc_statistics_tallies B I).ref_total b
          = (calc_statistics_tallies B (I.takeSents k)).ref_total b
            + (calc_statistics_tallies B (I.dropSents k)).ref_total b ∧
        (calc_statistics_tallies B I).out_totals oi b
          = (calc_statistics_tallies B (I.takeSents k)).out_totals oi b
            + (calc_statistics_tallies B (I.dropSents k)).out_totals oi b ∧
        (calc_statistics_tallies B I).out_matches oi b
          = (calc_statistics_tallies B (I.takeSents k)).out_matches oi b
            + (calc_statistics_tallies B (I.dropSents k)).out_matches oi b := by
  intro oi b
  refine ⟨?_, ?_, ?_⟩
  · exact calc_statistics_tallies_split B I k hk hlab hsrc hslab
      (fun t => t.ref_total b) (fun _ _ => rfl) rfl
  · exact calc_statistics_tallies_split B I k hk hlab hsrc hslab
      (fun t => t.out_totals oi b) (fun _ _ => rfl) rfl
  · exact calc_statistics_tallies_split B I k hk hlab hsrc hslab
      (fun t => t.out_matches oi b) (fun _ _ => rfl) rfl

/-- Witness for C5 on a concrete two-sentence corpus split at `k = 1`. -/
theorem C5_bucket_tallies_additive_witness :
    (calc_statistics_tallies exBucketer exInput).ref_total 0
        = (calc_statistics_tallies exBucketer (exInput.takeSents 1)).ref_total 0
          + (calc_statistics_tallies exBucketer (exInput.dropSents 1)).ref_total 0 ∧
      (calc_statistics_tallies exBucketer exInput).out_totals 0 0
        = (calc_statistics_tallies exBucketer (exInput.takeSents 1)).out_totals 0 0
          + (calc_statistics_tallies exBucketer (exInput.dropSents 1)).out_totals 0 0 ∧
      (calc_statistics_tallies exBucketer exInput).out_matches 0 0
        = (calc_statistics_tallies exBucketer (exInput.takeSents 1)).out_matches 0 0
          + (calc_statistics_tallies exBucketer (exInput.dropSents 1)).out_matches 0 0 :=
  C5_bucket_tallies_additive exBucketer exInput 1 (by norm_num [exInput])
    (Or.inl rfl) (Or.inl rfl) (Or.inl rfl) 0 0

/-- A member of a zip has correlated indices in the two lists. -/
theorem mem_zip_exists_index {α β : Type*} :
    ∀ {l : List α} {l' : List β} {q : α × β}, q ∈ l.zip l' →
      ∃ i : ℕ, l[i]? = some q.1 ∧ l'[i]? = some q.2 := by
  intro l
  induction l with
  | nil => intro l' q h; simp at h
  | cons a l ih =>
    intro l' q h
    cases l' with
    | nil => simp at h
    | cons b l' =>
      rw [List.zip_cons_cons, List.mem_cons] at h
      rcases h with rfl | h
      · exact ⟨0, by simp, by simp⟩
      · obtain ⟨i, h1, h2⟩ := ih h
        exact ⟨i + 1, by simpa using h1, by simpa using h2⟩

/-- A `countP` over a zip that pins the first component to `b` is at most
    the count of `b` in the left list. -/
theorem countP_zip_fst_le_count {α β : Type*} [DecidableEq α] (b : α) :
    ∀ (l : List α) (l' : List β),
      (l.zip l').countP (fun q => decide (q.1 = b)) ≤ l.count b := by
  intro l
  induction l with
  | nil => intro l'; simp
  | cons a l ih =>
    intro l'
    cases l' with
    | nil => simp
    | cons c l' =>
      rw [List.zip_cons_cons, List.countP_cons, List.count_cons]
      have hih := ih l'
      by_cases hab : a = b <;> simp [hab] <;> omega

/-- A fold preserves any invariant its step preserves. -/
theorem foldl_preserve {σ α : Type*} (P : σ → Prop) (f : σ → α → σ)
    (hstep : ∀ s a, P s → P (f s a)) :
    ∀ (l : List α) (s : σ), P s → P (l.foldl f s) := by
  intro l
  induction l with
  | nil => intro s h; exact h
  | cons a l ih => intro s h; exact ih _ (hstep s a h)

/-- Componentwise evaluation of the triple-accumulating fold of
    `calc_source_bucketed_matches`. -/
theorem foldl_triple_eval :
    ∀ (l : List (ℕ × ℕ × ℕ)) (z : ℕ × ℕ × ℕ),
      l.foldl (fun acc t => (acc.1 + t.1, acc.2.1 + t.2.1, acc.2.2 + t.2.2)) z
        = (z.1 + (l.map (fun t => t.1)).sum,
           z.2.1 + (l.map (fun t => t.2.1)).sum,
           z.2.2 + (l.map (fun t => t.2.2)).sum) := by
  intro l
  induction l with
  | nil => intro z; simp
  | cons t l ih =>
    intro z
    rw [List.foldl_cons, ih]
    simp only [List.map_cons, List.sum_cons]
    refine Prod.ext ?_ (Prod.ext ?_ ?_) <;> dsimp only <;> ring

/-- `padTo` pads every list to length at least `n`. -/
theorem padTo_length {α : Type*} (n : ℕ) (l : List α) :
    (padTo n l).length = max l.length n := by
  unfold padTo
  simp
  omega

/-- Reading a padded list inside the original range. -/
theorem padTo_getElem_of_lt {α : Type*} (n : ℕ) (l : List α) (i : ℕ)
    (hi : i < l.length) (h : i < (padTo n l).length) (d : α) :
    (padTo n l)[i] = some (l.getD i d) := by
  unfold padTo
  rw [List.getElem_append_left (by simpa using hi)]
  rw [List.getElem_map, List.getD_eq_getElem l d hi]

/-- The third component of a `zipLongest3` entry inside the range of the
    third list. -/
theorem zipLongest3_getElem?_third {α β γ : Type*} (a : List α) (b : List β)
    (c : List γ) (i : ℕ) (hi : i < c.length) (d : γ) :
    ∃ x y, (zipLongest3 a b c)[i]? = some (x, y, some (c.getD i d)) := by
  unfold zipLongest3
  have hn : c.length ≤ max a.length (max b.length c.length) := by omega
  have hpa : i < (padTo (max a.length (max b.length c.length)) a).length := by
    rw [padTo_length]; omega
  have hpb : i < (padTo (max a.length (max b.length c.length)) b).length := by
    rw [padTo_length]; omega
  have hpc : i < (padTo (max a.length (max b.length c.length)) c).length := by
    rw [padTo_length]; omega
  have hzbc : i < ((padTo (max a.length (max b.length c.length)) b).zip
      (padTo (max a.length (max b.length c.length)) c)).length := by
    rw [List.length_zip]; omega
  have hz : i < ((padTo (max a.length (max b.length c.length)) a).zip
      ((padTo (max a.length (max b.length c.length)) b).zip
        (padTo (max a.length (max b.length c.length)) c))).length := by
    rw [List.length_zip]; omega
  refine ⟨(padTo _ a)[i], (padTo _ b)[i], ?_⟩
  rw [List.getElem?_eq_getElem hz, List.getElem_zip, List.getElem_zip,
    padTo_getElem_of_lt _ c i hi hpc d]

/-- Positions recorded by `ref_pos` are valid reference indices. -/
theorem refPositions_lt (rs : List String) (w : String) :
    ∀ x ∈ refPositions rs w, x < rs.length := by
  intro x hx
  unfold refPositions at hx
  rw [List.mem_filter] at hx
  exact List.mem_range.mp hx.1

/-- Every nonnegative entry of an `out_matches` row produced by the target
    matcher is a valid reference position. -/
theorem trg_out_row_bound (rs : List String) :
    ∀ (l : List (ℕ × String)) (st : TrgMatchState),
      (∀ m ∈ st.out_row, 0 ≤ m → m.toNat < rs.length) →
      ∀ m ∈ (l.foldl (trgMatchStep rs) st).out_row, 0 ≤ m → m.toNat < rs.length := by
  intro l
  induction l with
  | nil => intro st h; simpa using h
  | cons p l ih =>
    intro st h
    rw [List.foldl_cons]
    apply ih
    intro m hm hm0
    unfold trgMatchStep at hm
    by_cases h1 : (refPositions rs p.2).length ≠ 0
    · rw [if_pos h1] at hm
      by_cases h2 : st.cnts p.2 < (refPositions rs p.2).length
      · rw [if_pos h2] at hm
        simp only [List.mem_append, List.mem_singleton] at hm
        rcases hm with hm | hm
        · exact h m hm hm0
        · subst hm
          have hmem : (refPositions rs p.2).getD (st.cnts p.2) 0
              ∈ refPositions rs p.2 := by
            rw [List.getD_eq_getElem _ _ h2]
            exact List.getElem_mem h2
          have := refPositions_lt rs p.2 _ hmem
          simpa using this
      · rw [if_neg h2] at hm
        simp only [List.mem_append, List.mem_singleton] at hm
        rcases hm with hm | hm
        · exact h m hm hm0
        · subst hm; simp at hm0
    · rw [if_neg h1] at hm
      simp only [List.mem_append, List.mem_singleton] at hm
      rcases hm with hm | hm
      · exact h m hm hm0
      · subst hm; simp at hm0

/-- Bound for the rows returned by `trgMatchSent`. -/
theorem trgMatchSent_out_bound (rs o : List String) :
    ∀ m ∈ (trgMatchSent rs o).1, 0 ≤ m → m.toNat < rs.length := by
  unfold trgMatchSent
  exact trg_out_row_bound rs o.enum _ (by simp)

/-- `zip_longest` of two lists has the length of the longer one. -/
theorem zipLongest2_length {α β : Type*} (a : List α) (b : List β) :
    (zipLongest2 a b).length = max a.length b.length := by
  unfold zipLongest2
  rw [List.length_zip, padTo_length, padTo_length]
  omega

/-- Per-sentence invariant of the target matcher: matched counts never
    exceed output totals, and a positive matched count forces a positive
    reference total at the same bucket. -/
theorem trg_tallies_invariant (B : WordBucketer) (rs rl : List String)
    (os ol : List (List String)) (oi b : ℕ) :
    (calc_trg_buckets_and_matches B rs rl os ol).out_matches oi b
        ≤ (calc_trg_buckets_and_matches B rs rl os ol).out_totals oi b ∧
      (0 < (calc_trg_buckets_and_matches B rs rl os ol).out_matches oi b →
        0 < (calc_trg_buckets_and_matches B rs rl os ol).ref_total b) := by
  unfold calc_trg_buckets_and_matches
  dsimp only
  set RS := if B.case_insensitive then lowerSent rs else rs with hRS
  set OS := if B.case_insensitive then os.map lowerSent else os with hOS
  set OLab := if rl = [] then OS.map (fun _ => ([] : List String)) else ol with hOL
  set rows := OS.map (fun o => (trgMatchSent RS o).1) with hrows
  set refB := (zipLongest2 RS rl).map (fun p => B.calcBucket p.1 p.2) with hrefB
  constructor
  · apply List.countP_mono_left
    intro q _ hq
    simp only [decide_eq_true_eq] at hq ⊢
    exact hq.1
  · intro hpos
    rw [List.countP_pos_iff] at hpos
    obtain ⟨q, hqmem, hq⟩ := hpos
    simp only [decide_eq_true_eq] at hq
    obtain ⟨hqb, hqnn⟩ := hq
    obtain ⟨idx, hidx1, hidx2⟩ := mem_zip_exists_index hqmem
    by_cases hoi : oi < OS.length
    · have hrowlen : oi < (List.range OS.length).length := by simpa using hoi
      have hrow : rows.getD oi [] = (trgMatchSent RS (OS.getD oi [])).1 := by
        rw [hrows]
        exact getD_map_of_lt _ OS oi hoi [] []
      rw [hrow] at hidx2
      obtain ⟨hidxlt, hq2⟩ := List.getElem?_eq_some.mp hidx2
      have hq2mem : q.2 ∈ (trgMatchSent RS (OS.getD oi [])).1 := by
        rw [← hq2]
        exact List.getElem_mem hidxlt
      have hq2bound : q.2.toNat < RS.length :=
        trgMatchSent_out_bound RS (OS.getD oi []) q.2 hq2mem hqnn
      have hobs : ((List.range OS.length).map (fun oai =>
          (zipLongest3 (OS.getD oai []) (OLab.getD oai [])
            (rows.getD oai [])).map (fun q3 =>
              if q3.2.2.getD (-1) < 0 then B.calcBucket q3.1 q3.2.1
              else refB.getD (q3.2.2.getD (-1)).toNat 0))).getD oi []
          = (zipLongest3 (OS.getD oi []) (OLab.getD oi [])
            (rows.getD oi [])).map (fun q3 =>
              if q3.2.2.getD (-1) < 0 then B.calcBucket q3.1 q3.2.1
              else refB.getD (q3.2.2.getD (-1)).toNat 0) := by
        rw [getD_map_of_lt _ (List.range OS.length) oi hrowlen [] 0]
        rw [List.getD_eq_getElem _ _ hrowlen, List.getElem_range]
      rw [hobs, hrow] at hidx1
      obtain ⟨x, y, hz⟩ := zipLongest3_getElem?_third (OS.getD oi [])
        (OLab.getD oi []) ((trgMatchSent RS (OS.getD oi [])).1) idx hidxlt (-1)
      rw [List.getElem?_map, hz] at hidx1
      have hgd : ((trgMatchSent RS (OS.getD oi [])).1).getD idx (-1) = q.2 := by
        rw [List.getD_eq_getElem _ _ hidxlt, hq2]
      rw [hgd] at hidx1
      simp only [Option.map_some'] at hidx1
      have hnotlt : ¬ ((some q.2).getD (-1) < 0) := by
        simp only [Option.getD_some]
        omega
      rw [if_neg hnotlt] at hidx1
      simp only [Option.getD_some, Option.some_inj] at hidx1
      have hblen : q.2.toNat < refB.length := by
        rw [hrefB, List.length_map, zipLongest2_length]
        omega
      have hbmem : b ∈ refB := by
        rw [← hqb, ← hidx1]
        rw [List.getD_eq_getElem _ _ hblen]
        exact List.getElem_mem hblen
      exact List.count_pos_iff.mpr hbmem
    · exfalso
      have hlen : rows.length ≤ oi := by
        rw [hrows, List.length_map]
        omega
      have : rows.getD oi [] = [] := by
        rw [List.getD_eq_default]
        exact hlen
      rw [this] at hidx2
      simp at hidx2

/-- Per-sentence invariant of the source matcher: matched counts never
    exceed output totals (which broadcast the reference totals), and a
    positive matched count forces a positive reference total. -/
theorem src_tallies_invariant (B : WordBucketer) (ss sl rs : List String)
    (ra : List (ℕ × ℕ)) (os : List (List String)) (oi b : ℕ) :
    (calc_src_buckets_and_matches B ss sl rs ra os).out_matches oi b
        ≤ (calc_src_buckets_and_matches B ss sl rs ra os).out_totals oi b ∧
      (0 < (calc_src_buckets_and_matches B ss sl rs ra os).out_matches oi b →
        0 < (calc_src_buckets_and_matches B ss sl rs ra os).ref_total b) := by
  unfold calc_src_buckets_and_matches
  dsimp only
  constructor
  · refine le_trans (List.countP_mono_left (fun q _ hq => ?_))
      (countP_zip_fst_le_count b _ _)
    simp only [decide_eq_true_eq] at hq ⊢
    exact hq.1
  · intro hpos
    rw [List.countP_pos_iff] at hpos
    obtain ⟨q, hqmem, hq⟩ := hpos
    simp only [decide_eq_true_eq] at hq
    have hmem := (List.of_mem_zip hqmem).1
    exact List.count_pos_iff.mpr (hq.1 ▸ hmem)

/-- Per-sentence invariant for either mode of `calc_statistics`. -/
theorem sent_tallies_invariant (B : WordBucketer) (I : StatsInput)
    (rsi oi b : ℕ) :
    (calc_statistics_sent B I rsi).out_matches oi b
        ≤ (calc_statistics_sent B I rsi).out_totals oi b ∧
      (0 < (calc_statistics_sent B I rsi).out_matches oi b →
        0 < (calc_statistics_sent B I rsi).ref_total b) := by
  unfold calc_statistics_sent
  split
  · exact src_tallies_invariant _ _ _ _ _ _ _ _
  · exact trg_tallies_invariant _ _ _ _ _ _ _

/-- The summed `ref_total` of `calc_statistics` as a per-sentence sum. -/
theorem calc_statistics_tallies_ref_total (B : WordBucketer) (I : StatsInput)
    (b : ℕ) :
    (calc_statistics_tallies B I).ref_total b
      = ((List.range (calc_statistics_len I)).map
          (fun rsi => (calc_statistics_sent B I rsi).ref_total b)).sum := by
  unfold calc_statistics_tallies
  have h := foldl_add_eval (fun t => t.ref_total b) (fun _ _ => rfl)
    ((List.range (calc_statistics_len I)).map
      (fun rsi => calc_statistics_sent B I rsi)) SentTallies.zero
  simpa [List.map_map, Function.comp_def, SentTallies.zero] using h

/-- The summed `out_totals` of `calc_statistics` as a per-sentence sum. -/
theorem calc_statistics_tallies_out_totals (B : WordBucketer) (I : StatsInput)
    (oi b : ℕ) :
    (calc_statistics_tallies B I).out_totals oi b
      = ((List.range (calc_statistics_len I)).map
          (fun rsi => (calc_statistics_sent B I rsi).out_totals oi b)).sum := by
  unfold calc_statistics_tallies
  have h := foldl_add_eval (fun t => t.out_totals oi b) (fun _ _ => rfl)
    ((List.range (calc_statistics_len I)).map
      (fun rsi => calc_statistics_sent B I rsi)) SentTallies.zero
  simpa [List.map_map, Function.comp_def, SentTallies.zero] using h

/-- The summed `out_matches` of `calc_statistics` as a per-sentence sum. -/
theorem calc_statistics_tallies_out_matches (B : WordBucketer) (I : StatsInput)
    (oi b : ℕ) :
    (calc_statistics_tallies B I).out_matches oi b
      = ((List.range (calc_statistics_len I)).map
          (fun rsi => (calc_statistics_sent B I rsi).out_matches oi b)).sum := by
  unfold calc_statistics_tallies
  have h := foldl_add_eval (fun t => t.out_matches oi b) (fun _ _ => rfl)
    ((List.range (calc_statistics_len I)).map
      (fun rsi => calc_statistics_sent B I rsi)) SentTallies.zero
  simpa [List.map_map, Function.comp_def, SentTallies.zero] using h

/-- The invariant holds for the summed tallies of `calc_statistics`, on any
    input whatsoever. -/
theorem tallies_invariant (B : WordBucketer) (I : StatsInput) (oi b : ℕ) :
    (calc_statistics_tallies B I).out_matches oi b
        ≤ (calc_statistics_tallies B I).out_totals oi b ∧
      (0 < (calc_statistics_tallies B I).out_matches oi b →
        0 < (calc_statistics_tallies B I).ref_total b) := by
  constructor
  · rw [calc_statistics_tallies_out_matches, calc_statistics_tallies_out_totals]
    apply List.sum_le_sum
    intro rsi _
    exact (sent_tallies_invariant B I rsi oi b).1
  · intro hpos
    rw [calc_statistics_tallies_out_matches] at hpos
    have hex : ∃ rsi ∈ List.range (calc_statistics_len I),
        0 < (calc_statistics_sent B I rsi).out_matches oi b := by
      by_contra hcon
      push_neg at hcon
      have hzero : ((List.range (calc_statistics_len I)).map
          (fun rsi => (calc_statistics_sent B I rsi).out_matches oi b)).sum = 0 := by
        apply List.sum_eq_zero
        intro x hx
        rw [List.mem_map] at hx
        obtain ⟨rsi, hr, rfl⟩ := hx
        have := hcon rsi hr
        omega
      omega
    obtain ⟨rsi, hr, hposi⟩ := hex
    have hrefpos := (sent_tallies_invariant B I rsi oi b).2 hposi
    rw [calc_statistics_tallies_ref_total]
    have hmem : (calc_statistics_sent B I rsi).ref_total b
        ∈ (List.range (calc_statistics_len I)).map
          (fun rsi => (calc_statistics_sent B I rsi).ref_total b) :=
      List.mem_map_of_mem _ hr
    have := List.single_le_sum (fun x _ => Nat.zero_le x) _ hmem
    omega

/-- In every sentence of `calc_source_bucketed_matches`, each increment of
    `both_tot` comes with an increment of `out_tot`. -/
theorem srcBucketedSentTally_both_le_out (B : WordBucketer)
    (ss rs os : List String) (ra oa : List (ℕ × ℕ)) (sl : List String) (b : ℕ) :
    (srcBucketedSentTally B ss rs os ra oa sl b).1
      ≤ (srcBucketedSentTally B ss rs os ra oa sl b).2.2 := by
  unfold srcBucketedSentTally
  dsimp only
  refine (foldl_preserve
    (fun st : (String → ℕ) × (ℕ → ℕ × ℕ) => ∀ c, (st.2 c).1 ≤ (st.2 c).2)
    _ ?_ oa _ ?_) b
  · intro s a hP
    intro c
    dsimp only
    split <;> split <;>
      (dsimp only
       split
       · dsimp only
         have := hP c
         omega
       · exact hP c)
  · intro c
    exact Nat.le_refl 0

/-- Summed over the corpus, `both_tot <= out_tot` at every bucket of
    `calc_source_bucketed_matches`. -/
theorem srcBucketedTally_both_le_out (B : WordBucketer)
    (src ref out : List (List String)) (ra oa : List (List (ℕ × ℕ)))
    (sl : List (List String)) (b : ℕ) :
    (srcBucketedTally B src ref out ra oa sl b).1
      ≤ (srcBucketedTally B src ref out ra oa sl b).2.2 := by
  unfold srcBucketedTally
  rw [foldl_triple_eval]
  dsimp only
  simp only [Nat.zero_add, List.map_map]
  apply List.sum_le_sum
  intro i _
  exact srcBucketedSentTally_both_le_out B _ _ _ _ _ _ b

/-- Zero match count always yields the all-zero derived statistics. -/
theorem deriveStats_zero (r o : ℕ) : deriveStats 0 r o = some (0, 0, 0) := by
  unfold deriveStats
  rw [if_pos rfl]

/-- Characterisation of the `ZeroDivisionError` cases of `deriveStats`. -/
theorem deriveStats_eq_none_iff (m r o : ℕ) :
    deriveStats m r o = none ↔ m ≠ 0 ∧ (r = 0 ∨ o = 0) := by
  unfold deriveStats
  split_ifs with h1 h2 h3 <;> simp_all

/-- **C6 (amended)**: whenever the matched count is `0` the derived recall,
    precision and F1 are all exactly `0`; `calc_statistics` never divides
    by zero on any input (`mcnt <= ocnt` and `mcnt > 0` forces
    `rcnt > 0`); in `calc_source_bucketed_matches`, `both_tot <= out_tot`
    always holds, but division by zero occurs exactly at a bucket with
    `both_tot > 0` and `ref_tot = 0`. -/
theorem C6_no_div_by_zero_amended :
    (∀ r o : ℕ, deriveStats 0 r o = some (0, 0, 0)) ∧
    (∀ (B : WordBucketer) (I : StatsInput),
      ∀ row ∈ calc_statistics B I, ∀ cell ∈ row, cell ≠ none) ∧
    (∀ (B : WordBucketer) (src ref out : List (List String))
      (ra oa : List (List (ℕ × ℕ))) (sl : List (List String)) (b : ℕ),
      (srcBucketedTally B src ref out ra oa sl b).1
          ≤ (srcBucketedTally B src ref out ra oa sl b).2.2 ∧
        (b < B.numBuckets →
          ((calc_source_bucketed_matches B src ref out ra oa sl).getD b none = none
            ↔ (srcBucketedTally B src ref out ra oa sl b).1 ≠ 0
              ∧ (srcBucketedTally B src ref out ra oa sl b).2.1 = 0))) := by
  refine ⟨deriveStats_zero, ?_, ?_⟩
  · intro B I row hrow cell hcell hnone
    unfold calc_statistics at hrow
    rw [List.mem_map] at hrow
    obtain ⟨oi, _, rfl⟩ := hrow
    rw [List.mem_map] at hcell
    obtain ⟨bi, _, rfl⟩ := hcell
    rw [Option.map_eq_none'] at hnone
    rw [deriveStats_eq_none_iff] at hnone
    obtain ⟨hm, hro⟩ := hnone
    have hinv := tallies_invariant B I oi bi
    rcases hro with h | h
    · have := hinv.2 (Nat.pos_of_ne_zero hm)
      omega
    · have := hinv.1
      omega
  · intro B src ref out ra oa sl b
    refine ⟨srcBucketedTally_both_le_out B src ref out ra oa sl b, ?_⟩
    intro hb
    unfold calc_source_bucketed_matches
    rw [getD_map_of_lt _ (List.range B.numBuckets) b (by simpa using hb) none 0,
      List.getD_eq_getElem _ _ (by simpa using hb), List.getElem_range]
    dsimp only
    rw [Option.map_eq_none', deriveStats_eq_none_iff]
    have hle := srcBucketedTally_both_le_out B src ref out ra oa sl b
    constructor
    · rintro ⟨hm, h | h⟩
      · exact ⟨hm, h⟩
      · exact ⟨hm, by omega⟩
    · rintro ⟨hm, hr⟩
      exact ⟨hm, Or.inl hr⟩

/-- Witness for C6 (amended): on a concrete corpus, the first cell of the
    first row of `calc_statistics` is a computed value, not a crash. -/
theorem C6_no_div_by_zero_amended_witness :
    ((calc_statistics exBucketer exInput1).getD 0 []).getD 0 none ≠ none := by
  have hlen : 0 < (calc_statistics exBucketer exInput1).length := by
    unfold calc_statistics
    simp [exInput1]
  have hrow : (calc_statistics exBucketer exInput1).getD 0 []
      ∈ calc_statistics exBucketer exInput1 := by
    rw [List.getD_eq_getElem _ _ hlen]
    exact List.getElem_mem hlen
  have hrowlen : 0 < ((calc_statistics exBucketer exInput1).getD 0 []).length := by
    unfold calc_statistics
    rw [getD_map_of_lt _ (List.range exInput1.outs.length) 0
      (by simp [exInput1]) [] 0]
    simp [exBucketer]
  have hcell : ((calc_statistics exBucketer exInput1).getD 0 []).getD 0 none
      ∈ (calc_statistics exBucketer exInput1).getD 0 [] := by
    rw [List.getD_eq_getElem _ _ hrowlen]
    exact List.getElem_mem hrowlen
  exact C6_no_div_by_zero_amended.2.1 exBucketer exInput1 _ hrow _ hcell

/-- **C6 counterexample**: with a single-bucket bucketer, source `[["a"]]`,
    reference `[["x"]]`, output `[["x"]]`, an empty reference alignment and
    the output alignment `[[(0, 0)]]`, the single bucket gets
    `both_tot = 1`, `ref_tot = 0`, `out_tot = 1`, and
    `calc_source_bucketed_matches` divides by zero (`rec = 1/0`): the
    claim that no division by zero occurs for any input is false. -/
theorem C6_div_by_zero_counterexample :
    calc_source_bucketed_matches exBucketer [["a"]] [["x"]] [["x"]]
      [[]] [[(0, 0)]] [] = [none] := by
  rfl

/-- **C9**: sentence-level scoring on the corpus-level-only metrics
    (`BleuScorer`, `SacreBleuScorer`) always raises a not-implemented error
    and never returns a numeric value. -/
theorem C9_sentence_level_refused (W : BleuScorer) (V : SacreBleuScorer)
    (ref out : List String) :
    ((∃ msg, W.score_sentence ref out = Except.error msg) ∧
      ∀ v, W.score_sentence ref out ≠ Except.ok v) ∧
    ((∃ msg, V.score_sentence ref out = Except.error msg) ∧
      ∀ v, V.score_sentence ref out ≠ Except.ok v) := by
  refine ⟨⟨⟨_, rfl⟩, fun v h => ?_⟩, ⟨_, rfl⟩, fun v h => ?_⟩ <;>
    simp [BleuScorer.score_sentence, SacreBleuScorer.score_sentence] at h

end CompareMT
